import Mathlib

/-!
Verification development for the multilayer-perceptron training engine of the
RobinRCM/sklearn repository (package neuralnetwork, plus its linearModel and
base collaborators).  The Go source works on float64; we embed float64 as an
exact value model `Flt`: a finite rational, NaN, or a signed infinity.
Rounding and overflow of finite operations are not modelled (finite arithmetic
is exact), but the special values and their IEEE-754 propagation through the
arithmetic the source uses are.  Signed zero is not modelled.  Transcendental
library routines (math.Exp, math.Tanh, math.Sqrt, math.Log, math.Log1p) are
external to the repository and are passed in as parameters (`RealFns`); the
properties proved below do not depend on their values beyond explicitly stated
hypotheses.  Dense matrices (gonum blas64.General, always built with
Stride = Cols in the code paths embedded here) are modelled as lists of rows.
-/

namespace MLP64

/-- Value model for Go float64: exact finite rational, NaN, +Inf or -Inf. -/
inductive Flt where
  | fin (q : ℚ)
  | nan
  | inf
  | ninf
deriving DecidableEq

/-- IEEE-754 addition on the value model (finite arithmetic exact). -/
def Flt.add : Flt → Flt → Flt
  | .fin a, .fin b => .fin (a + b)
  | .fin _, .inf => .inf
  | .fin _, .ninf => .ninf
  | .inf, .fin _ => .inf
  | .ninf, .fin _ => .ninf
  | .inf, .inf => .inf
  | .ninf, .ninf => .ninf
  | .inf, .ninf => .nan
  | .ninf, .inf => .nan
  | .nan, _ => .nan
  | _, .nan => .nan

/-- IEEE-754 negation on the value model. -/
def Flt.neg : Flt → Flt
  | .fin a => .fin (-a)
  | .nan => .nan
  | .inf => .ninf
  | .ninf => .inf

/-- IEEE-754 subtraction: a - b = a + (-b) (exact for finite values). -/
def Flt.sub (a b : Flt) : Flt := Flt.add a (Flt.neg b)

/-- IEEE-754 multiplication on the value model. -/
def Flt.mul : Flt → Flt → Flt
  | .fin a, .fin b => .fin (a * b)
  | .fin a, .inf => if 0 < a then .inf else if a < 0 then .ninf else .nan
  | .fin a, .ninf => if 0 < a then .ninf else if a < 0 then .inf else .nan
  | .inf, .fin b => if 0 < b then .inf else if b < 0 then .ninf else .nan
  | .ninf, .fin b => if 0 < b then .ninf else if b < 0 then .inf else .nan
  | .inf, .inf => .inf
  | .inf, .ninf => .ninf
  | .ninf, .inf => .ninf
  | .ninf, .ninf => .inf
  | .nan, _ => .nan
  | _, .nan => .nan

/-- IEEE-754 division on the value model (division of a nonzero finite value
by zero gives the infinity matching the numerator sign; signed zero is not
modelled, so a zero divisor is treated as +0). -/
def Flt.div : Flt → Flt → Flt
  | .fin a, .fin b =>
      if b = 0 then (if a = 0 then .nan else if 0 < a then .inf else .ninf)
      else .fin (a / b)
  | .fin _, .inf => .fin 0
  | .fin _, .ninf => .fin 0
  | .inf, .fin b => if b < 0 then .ninf else .inf
  | .ninf, .fin b => if b < 0 then .inf else .ninf
  | .inf, .inf => .nan
  | .inf, .ninf => .nan
  | .ninf, .inf => .nan
  | .ninf, .ninf => .nan
  | .nan, _ => .nan
  | _, .nan => .nan

/-- IEEE-754 strict less-than as a Boolean (false whenever NaN is involved). -/
def Flt.ltB : Flt → Flt → Bool
  | .fin a, .fin b => decide (a < b)
  | .fin _, .inf => true
  | .ninf, .fin _ => true
  | .ninf, .inf => true
  | _, _ => false

/-- NaN test. -/
def Flt.isNaN : Flt → Bool
  | .nan => true
  | _ => false

/-- Finiteness test. -/
def Flt.isFinite : Flt → Bool
  | .fin _ => true
  | _ => false

/-- IEEE-754 absolute value. -/
def Flt.abs : Flt → Flt
  | .fin a => .fin |a|
  | .nan => .nan
  | .inf => .inf
  | .ninf => .inf

instance : Add Flt := ⟨Flt.add⟩
instance : Neg Flt := ⟨Flt.neg⟩
instance : Sub Flt := ⟨Flt.sub⟩
instance : Mul Flt := ⟨Flt.mul⟩
instance : Div Flt := ⟨Flt.div⟩

instance (n : ℕ) : OfNat Flt n := ⟨Flt.fin n⟩

/-- Embedding of the Go conversion float64(n) of a nonnegative integer. -/
def Flt.ofNat (n : ℕ) : Flt := .fin n

/-- Iterated float multiplication, used only to state the spec formula
beta^t (the source never computes an explicit power). -/
def Flt.pow (b : Flt) : ℕ → Flt
  | 0 => Flt.fin 1
  | n + 1 => Flt.pow b n * b

/-- A dense float64 matrix (blas64.General with Stride = Cols) as its list of
rows. -/
abbrev Mat := List (List Flt)

/-- The transcendental float64 routines of the Go math package, which is
external to the repository; they enter the embedding as parameters. -/
structure RealFns where
  exp : Flt → Flt
  tanh : Flt → Flt
  sqrt : Flt → Flt
  log : Flt → Flt
  log1p : Flt → Flt

/-- Embedding of the Activations64 map (in-place elementwise activations over
a 2-D buffer, modelled functionally; lookup of an unregistered name would be a
nil-map access panic in Go and is modelled as the identity, unreachable after
validateHyperparameters). Note the source computes M64.Tanh(-z), not
M64.Tanh(z), for the "tanh" entry. -/
def Activations64 (F : RealFns) (name : String) : Mat → Mat :=
  if name = "identity" then fun z => z
  else if name = "logistic" then
    fun z => z.map (List.map (fun v => Flt.fin 1 / (Flt.fin 1 + F.exp (Flt.neg v))))
  else if name = "tanh" then
    fun z => z.map (List.map (fun v => F.tanh (Flt.neg v)))
  else if name = "relu" then
    fun z => z.map (List.map (fun v => if Flt.ltB v (Flt.fin 0) then Flt.fin 0 else v))
  else if name = "softmax" then
    fun z => z.map (fun row =>
      let row2 := row.map F.exp
      let s := row2.foldl (· + ·) (Flt.fin 0)
      row2.map (fun v => v / s))
  else fun z => z

/-- Embedding of the Derivatives64 map: multiply the deltas buffer in place by
the activation derivative evaluated at the stored activation output Z. -/
def Derivatives64 (name : String) : Mat → Mat → Mat :=
  if name = "identity" then fun _ deltas => deltas
  else if name = "logistic" then
    fun Z deltas => List.zipWith (List.zipWith (fun z d => d * (z * (Flt.fin 1 - z)))) Z deltas
  else if name = "tanh" then
    fun Z deltas => List.zipWith (List.zipWith (fun z d => d * (Flt.fin 1 - z * z))) Z deltas
  else if name = "relu" then
    fun Z deltas => List.zipWith (List.zipWith (fun z d => if z = Flt.fin 0 then Flt.fin 0 else d)) Z deltas
  else fun _ deltas => deltas

/-- math.Nextafter(0, 1): the smallest positive subnormal float64. -/
def hmin64 : Flt := Flt.fin (1 / 2 ^ 1074)

/-- math.Nextafter(1, 0): the largest float64 below 1. -/
def hmax64 : Flt := Flt.fin (1 - 1 / 2 ^ 53)

/-- The "square_loss" entry of LossFunctions64: sum of squared errors over the
rows of y, divided by 2 and by the ROW COUNT OF h (which in the last truncated
minibatch can exceed y's). -/
def squareLoss (y h : Mat) : Flt :=
  ((List.range y.length).foldl (fun s r =>
      (List.range ((y.getD r []).length)).foldl (fun s2 c =>
          let e := (h.getD r []).getD c (Flt.fin 0) - (y.getD r []).getD c (Flt.fin 0)
          s2 + e * e) s)
    (Flt.fin 0)) / Flt.fin 2 / Flt.ofNat h.length

/-- The "log_loss" entry of LossFunctions64: predictions clamped into
[hmin64, hmax64], terms -y*log(h) summed only where y is nonzero. -/
def logLoss (F : RealFns) (y h : Mat) : Flt :=
  ((List.range y.length).foldl (fun s r =>
      (List.range ((y.getD r []).length)).foldl (fun s2 c =>
          let hval0 := (h.getD r []).getD c (Flt.fin 0)
          let hval := if Flt.ltB hval0 hmin64 then hmin64
            else if Flt.ltB hmax64 hval0 then hmax64 else hval0
          let yval := (y.getD r []).getD c (Flt.fin 0)
          if yval ≠ Flt.fin 0 then s2 + Flt.neg yval * F.log hval else s2) s)
    (Flt.fin 0)) / Flt.ofNat h.length

/-- The "binary_log_loss" entry of LossFunctions64: clamped cross entropy
-y*log(h) - (1-y)*log1p(-h). -/
def binaryLogLoss (F : RealFns) (y h : Mat) : Flt :=
  ((List.range y.length).foldl (fun s r =>
      (List.range ((y.getD r []).length)).foldl (fun s2 c =>
          let hval0 := (h.getD r []).getD c (Flt.fin 0)
          let hval := if Flt.ltB hval0 hmin64 then hmin64
            else if Flt.ltB hmax64 hval0 then hmax64 else hval0
          let yval := (y.getD r []).getD c (Flt.fin 0)
          s2 + (Flt.neg yval * F.log hval - (Flt.fin 1 - yval) * F.log1p (Flt.neg hval))) s)
    (Flt.fin 0)) / Flt.ofNat h.length

/-- Embedding of the LossFunctions64 map (string-keyed loss registry); an
unregistered name would be a nil-function call panic in Go, modelled as 0 and
unreachable from initialize. None of the three entries checks the computed sum
for NaN or +Inf. -/
def LossFunctions64 (F : RealFns) (name : String) (y h : Mat) : Flt :=
  if name = "square_loss" then squareLoss y h
  else if name = "log_loss" then logLoss F y h
  else if name = "binary_log_loss" then binaryLogLoss F y h
  else Flt.fin 0

/-- Modelled from the spec: gemm64 (dense matrix multiply of the external
numeric-library boundary; its source file is not under src/): plain row-by-
column product into a fresh destination. -/
def matMul (A B : Mat) : Mat :=
  A.map (fun arow =>
    (List.range ((B.headD []).length)).map (fun j =>
      (arow.zip B).foldl (fun s p => s + p.1 * (p.2.getD j (Flt.fin 0))) (Flt.fin 0)))

/-- Embedding of addIntercepts64: add the intercept vector b to every row. -/
def addIntercepts64 (a : Mat) (b : List Flt) : Mat :=
  a.map (fun row => row.mapIdx (fun c v => v + b.getD c (Flt.fin 0)))

/-- Apply f to the last element of a list, leaving the rest unchanged. -/
def updateLast (f : Mat → Mat) : List Mat → List Mat
  | [] => []
  | [a] => [f a]
  | a :: b :: rest => a :: updateLast f (b :: rest)

/-- The layer loop of forwardPass: from activation a, produce the list of
activations of the later layers; the hidden activation is applied to every
layer transition except the final one. -/
def forwardLayers (hidden : Mat → Mat) : Mat → List (Mat × List Flt) → List Mat
  | _, [] => []
  | a, (W, b) :: rest =>
    let z := addIntercepts64 (matMul a W) b
    match rest with
    | [] => [z]
    | _ :: _ => hidden z :: forwardLayers hidden (hidden z) rest

/-- Embedding of forwardPass: activations[0] = X; activations[i+1] =
activations[i]·Coefs[i] + Intercepts[i], hidden activation on all but the last
layer, output activation on the last layer. -/
def forwardPass (F : RealFns) (hiddenName outName : String) (coefs : List Mat)
    (intercepts : List (List Flt)) (X : Mat) : List Mat :=
  updateLast (Activations64 F outName)
    (X :: forwardLayers (Activations64 F hiddenName) X (coefs.zip intercepts))

/-- Per-column maximum absolute value of a matrix (the batchNormalize scan). -/
def colMaxAbs (a : Mat) (o : ℕ) : Flt :=
  a.foldl (fun M row =>
    if Flt.ltB M (Flt.abs (row.getD o (Flt.fin 0))) then Flt.abs (row.getD o (Flt.fin 0)) else M)
    (Flt.fin 0)

/-- Divide every column of a matrix by its maximum absolute value when that
maximum is positive (the batchNormalize update for one layer). -/
def normalizeCols (a : Mat) : Mat :=
  a.map (fun row => row.mapIdx (fun o v =>
    if Flt.ltB (Flt.fin 0) (colMaxAbs a o) then v / colMaxAbs a o else v))

/-- Embedding of batchNormalize: normalize activations[i+1] for
i = 0 .. NLayers-3, i.e. every activation except the input and the final
layer. -/
def batchNormalizeActs (acts : List Mat) : List Mat :=
  (List.range acts.length).map (fun k =>
    if 1 ≤ k ∧ k + 1 < acts.length then normalizeCols (acts.getD k []) else acts.getD k [])

/-- Embedding of sumCoefSquares: sum of the squares of every weight
coefficient; the intercept (bias) vectors are not part of Coefs and do not
enter the sum. -/
def sumCoefSquares (coefs : List Mat) : Flt :=
  coefs.foldl (fun s W => W.foldl (fun s2 row => row.foldl (fun s3 v => s3 + v * v) s2) s)
    (Flt.fin 0)

/-- The hyperparameters of BaseMultilayerPerceptron64 that the loss path of
backprop reads. -/
structure MLPCfg where
  Activation : String
  OutActivation : String
  LossFuncName : String
  Alpha : ℚ
  WeightDecay : ℚ
  BatchNormalize : Bool

/-- The weight-decay step at the top of backprop: when WeightDecay > 0 every
packed parameter (weights and intercepts alike) is scaled by
(1 - WeightDecay); weight part. -/
def decayedCoefs (wd : ℚ) (coefs : List Mat) : List Mat :=
  if 0 < wd then coefs.map (fun W => W.map (fun row => row.map (fun v => v * Flt.fin (1 - wd))))
  else coefs

/-- The weight-decay step of backprop, intercept part. -/
def decayedIntercepts (wd : ℚ) (ics : List (List Flt)) : List (List Flt) :=
  if 0 < wd then ics.map (List.map (fun v => v * Flt.fin (1 - wd))) else ics

/-- The loss-name substitution at the top of backprop: log_loss with a
logistic output activation is evaluated as binary_log_loss. -/
def effectiveLossName (lossFuncName outActivation : String) : String :=
  if lossFuncName = "log_loss" ∧ outActivation = "logistic" then "binary_log_loss"
  else lossFuncName

/-- Embedding of the loss computation of backprop, in source order: weight
decay, forward pass, optional batch normalization, loss-registry call on
(y, activations[last]), then the L2 term (0.5*Alpha)*sumCoefSquares/nSamples
added to the scalar loss.  The gradient part of backprop writes only the
delta/gradient buffers and does not feed back into the returned loss, so it is
omitted here. -/
def backpropLoss (F : RealFns) (cfg : MLPCfg) (coefs : List Mat)
    (intercepts : List (List Flt)) (X y : Mat) : Flt :=
  let nSamples := X.length
  let coefs2 := decayedCoefs cfg.WeightDecay coefs
  let intercepts2 := decayedIntercepts cfg.WeightDecay intercepts
  let acts0 := forwardPass F cfg.Activation cfg.OutActivation coefs2 intercepts2 X
  let acts := if cfg.BatchNormalize then batchNormalizeActs acts0 else acts0
  let loss := LossFunctions64 F (effectiveLossName cfg.LossFuncName cfg.OutActivation) y
    (acts.getLastD [])
  loss + (Flt.fin (1 / 2) * Flt.fin cfg.Alpha) * sumCoefSquares coefs2 / Flt.ofNat nSamples

/-- The final-layer activations a backprop call feeds to the loss registry:
the last entry of the forward pass on the decayed parameters. -/
def lastActivation (F : RealFns) (cfg : MLPCfg) (coefs : List Mat)
    (intercepts : List (List Flt)) (X : Mat) : Mat :=
  (forwardPass F cfg.Activation cfg.OutActivation (decayedCoefs cfg.WeightDecay coefs)
    (decayedIntercepts cfg.WeightDecay intercepts) X).getLastD []

/-- One epoch of the minibatch sweep of fitStochastic, as a fuel-indexed tail
recursion mirroring the Go for-loop: while batch[0] < limit (limit =
nSamples - testSize), clip batch[1] to limit, accumulate
batchLoss * (batch[1] - batch[0]), advance to [batch[1], batch[1]+batchSize).
The per-batch losses returned by backprop (which depend on the evolving
parameters) enter as the function argument.  A fuel of limit bounds the
iteration count whenever batchSize ≥ 1, which fit guarantees; batchSize = 0
would loop forever in Go and exhausts the fuel here. -/
def sweepLoopF (losses : ℕ → ℕ → Flt) (limit bs : ℕ) : ℕ → Flt → ℕ → Flt
  | 0, acc, _ => acc
  | fuel + 1, acc, b0 =>
    if b0 < limit then
      let b1 := min (b0 + bs) limit
      sweepLoopF losses limit bs fuel (acc + losses b0 b1 * Flt.ofNat (b1 - b0)) b1
    else acc

/-- The epoch loss recorded by fitStochastic: the accumulated sweep total
DIVIDED BY nSamples (the full row count, validation slice included). -/
def epochLoss (losses : ℕ → ℕ → Flt) (nSamples testSize bs : ℕ) : Flt :=
  sweepLoopF losses (nSamples - testSize) bs (nSamples - testSize) (Flt.fin 0) 0
    / Flt.ofNat nSamples

/-- Modelled from the spec: partition the non-validation rows [0, nSamples -
testSize) into contiguous blocks of the configured batch size (last block may
be shorter), accumulate loss times block row count, and divide by the total
non-validation row count. -/
def specEpochLoss (losses : ℕ → ℕ → Flt) (nSamples testSize bs : ℕ) : Flt :=
  let limit := nSamples - testSize
  let nblocks := if bs = 0 then 0 else (limit + bs - 1) / bs
  ((List.range nblocks).foldl (fun acc i =>
      acc + losses (i * bs) (min ((i + 1) * bs) limit)
        * Flt.ofNat (min ((i + 1) * bs) limit - i * bs)) (Flt.fin 0))
    / Flt.ofNat limit

/-- Embedding of the AdamOptimizer64 state (zero integers/floats and nil
slices for the fields Go leaves at their zero values). -/
structure AdamOptimizer64 where
  Params : List Flt
  LearningRateInit : Flt
  LearningRate : Flt
  Beta1 : Flt
  Beta2 : Flt
  Epsilon : Flt
  t : Flt
  ms : List Flt
  vs : List Flt
  beta1t : Flt
  beta2t : Flt
deriving DecidableEq

/-- Embedding of AdamOptimizer64.triggerStopping: unconditionally true (stop),
whatever the message and verbosity. -/
def AdamOptimizer64.triggerStopping (_opt : AdamOptimizer64) (_msg : String)
    (_verbose : Bool) : Bool :=
  true

/-- Embedding of AdamOptimizer64.iterationEnds: a no-op. -/
def AdamOptimizer64.iterationEnds (opt : AdamOptimizer64) (_timeStep : Flt) :
    AdamOptimizer64 :=
  opt

/-- Embedding of AdamOptimizer64.updateParams.  Note that the source multiplies
the running products beta1t and beta2t by Beta1/Beta2 INSIDE the per-parameter
loop, and recomputes LearningRate from them for every parameter index. -/
def AdamOptimizer64.updateParams (F : RealFns) (opt : AdamOptimizer64)
    (grads : List Flt) : AdamOptimizer64 :=
  let o0 := if opt.t = Flt.fin 0 then
      { opt with ms := List.replicate grads.length (Flt.fin 0)
                 vs := List.replicate grads.length (Flt.fin 0)
                 beta1t := Flt.fin 1
                 beta2t := Flt.fin 1 }
    else opt
  let o1 := { o0 with t := o0.t + Flt.fin 1 }
  grads.enum.foldl (fun o p =>
    let i := p.1
    let grad := p.2
    let ms2 := o.ms.set i (o.Beta1 * o.ms.getD i (Flt.fin 0) + (Flt.fin 1 - o.Beta1) * grad)
    let vs2 := o.vs.set i (o.Beta2 * o.vs.getD i (Flt.fin 0) + (Flt.fin 1 - o.Beta2) * grad * grad)
    let b1t := o.beta1t * o.Beta1
    let b2t := o.beta2t * o.Beta2
    let lr := o.LearningRateInit * F.sqrt (Flt.fin 1 - b2t) / (Flt.fin 1 - b1t)
    let upd := Flt.neg lr * ms2.getD i (Flt.fin 0) / (F.sqrt (vs2.getD i (Flt.fin 0)) + o.Epsilon)
    { o with ms := ms2, vs := vs2, beta1t := b1t, beta2t := b2t, LearningRate := lr,
             Params := o.Params.set i (o.Params.getD i (Flt.fin 0) + upd) }) o1

/-- Modelled from the spec: the claimed per-step effective Adam learning rate,
initialRate * sqrt(1 - beta2^t) / (1 - beta1^t) with the powers taken once per
step t. -/
def specAdamLR (F : RealFns) (init beta1 beta2 : Flt) (t : ℕ) : Flt :=
  init * F.sqrt (Flt.fin 1 - Flt.pow beta2 t) / (Flt.fin 1 - Flt.pow beta1 t)

/-- Embedding of the LabelBinarizer64 record. -/
structure LabelBinarizer64 where
  NegLabel : Flt
  PosLabel : Flt
  Classes : List (List Flt)
deriving DecidableEq

/-- Embedding of NewLabelBinarizer64. -/
def NewLabelBinarizer64 (neg pos : Flt) : LabelBinarizer64 :=
  { NegLabel := neg, PosLabel := pos, Classes := [] }

/-- The comparison of Float64Slice.Less: p[i] < p[j], with NaN ordered before
every non-NaN value. -/
def float64SliceLess (a b : Flt) : Bool :=
  Flt.ltB a b || (a.isNaN && !b.isNaN)

/-- Insert into a list sorted by float64SliceLess (insertion sort step). -/
def insertLess (x : Flt) : List Flt → List Flt
  | [] => [x]
  | y :: ys => if float64SliceLess x y then x :: y :: ys else y :: insertLess x ys

/-- Sort by float64SliceLess; on the duplicate-free value lists Fit builds,
this is the unique order sort.Sort produces. -/
def sortLess (l : List Flt) : List Flt :=
  l.foldr insertLess []

/-- Keep the first occurrence of each value, dropping later duplicates (the
cmap-based dedup of Fit).  Go's map never recognises a NaN key, so NaN labels
would never be deduplicated there; NaN label values are not modelled. -/
def dedupKeepFirst (l : List Flt) : List Flt :=
  (l.foldl (fun acc v => if acc.contains v then acc else acc ++ [v]) [])

/-- Column j of a row-major label matrix. -/
def colVals (Y : Mat) (j : ℕ) : List Flt :=
  Y.map (fun row => row.getD j (Flt.fin 0))

/-- Embedding of LabelBinarizer64.Fit: bump PosLabel when it collides with
NegLabel, then per target column record the distinct observed values in
insertion order and sort them. -/
def LabelBinarizer64.Fit (m : LabelBinarizer64) (Y : Mat) : LabelBinarizer64 :=
  let pos := if m.PosLabel = m.NegLabel then m.PosLabel + Flt.fin 1 else m.PosLabel
  { m with PosLabel := pos,
           Classes := (List.range (Y.headD []).length).map
             (fun j => sortLess (dedupKeepFirst (colVals Y j))) }

/-- The per-row inner loop of Transform over the class blocks: for the value
of column j, if it is a fit-time class write PosLabel at the class column of
its block; otherwise the source writes NegLabel at the block's column 0 (the
zero value of the failed map lookup) and leaves the rest of the block at the
zero fill of the fresh output buffer. -/
def transformRowAux (neg pos : Flt) : List (List Flt × Flt) → ℕ → List Flt → List Flt
  | [], _, out => out
  | (cls, val) :: rest, baseCol, out =>
    let out2 := match cls.findIdx? (fun c => c = val) with
      | some classNo => out.set (baseCol + classNo) pos
      | none => out.set (baseCol + 0) neg
    transformRowAux neg pos rest (baseCol + cls.length) out2

/-- Embedding of LabelBinarizer64.Transform (the Y output; the X argument is
passed through unchanged in the source). -/
def LabelBinarizer64.Transform (m : LabelBinarizer64) (Y : Mat) : Mat :=
  let NOutputs := (m.Classes.map List.length).sum
  Y.map (fun yrow =>
    transformRowAux m.NegLabel m.PosLabel
      ((List.range yrow.length).map (fun j => (m.Classes.getD j [], yrow.getD j (Flt.fin 0))))
      0 (List.replicate NOutputs (Flt.fin 0)))

/-- The running baseCol of Transform's block loop just before column j is
processed: the total width of the first j class blocks. -/
def classBaseCol (classes : List (List Flt)) (j : ℕ) : ℕ :=
  ((List.range j).map (fun k => (classes.getD k []).length)).sum

/-- Modelled from the spec: MaxIdx64 (its source file is not under src/) picks
the index of the arithmetic maximum, lowest index on ties. -/
def maxIdxAux : List Flt → ℕ → ℕ → Flt → ℕ
  | [], _, besti, _ => besti
  | v :: rest, i, besti, bestv =>
    if Flt.ltB bestv v then maxIdxAux rest (i + 1) i v
    else maxIdxAux rest (i + 1) besti bestv

/-- Modelled from the spec: MaxIdx64 over a slice. -/
def MaxIdx64 : List Flt → ℕ
  | [] => 0
  | v :: rest => maxIdxAux rest 1 0 v

/-- The per-row loop of InverseTransform, reproducing the source exactly: the
loop body advances baseCol by the block width AND the for post-statement adds
the same block width again (using the pre-increment j), so baseCol moves two
block widths per decoded column.  fuel bounds the iterations (a non-advancing
empty class block would loop forever in Go). -/
def inverseLoopAux (classes : List (List Flt)) (yrow : List Flt) :
    ℕ → ℕ → ℕ → List Flt → List Flt
  | 0, _, _, out => out
  | fuel + 1, j, baseCol, out =>
    if baseCol < yrow.length then
      let cls := classes.getD j []
      let classNo := MaxIdx64 ((yrow.drop baseCol).take cls.length)
      let out2 := out.set j (cls.getD classNo (Flt.fin 0))
      inverseLoopAux classes yrow fuel (j + 1) (baseCol + cls.length + cls.length) out2
    else out

/-- Embedding of LabelBinarizer64.InverseTransform (the Y output): one output
column per fitted target column, decoded from the encoded row's class blocks
by MaxIdx64; undecoded output columns keep the zero fill of the fresh
buffer. -/
def LabelBinarizer64.InverseTransform (m : LabelBinarizer64) (Y : Mat) : Mat :=
  Y.map (fun yrow =>
    inverseLoopAux m.Classes yrow (yrow.length + 1) 0 0
      (List.replicate m.Classes.length (Flt.fin 0)))

/-- The early-stopping bookkeeping fields of BaseMultilayerPerceptron64 that
updateNoImprovementCount touches.  BestValidationScore starts at the Go zero
value 0 (initialize sets only BestLoss, to +Inf); bestParameters starts as the
freshly allocated all-zero buffer. -/
structure ESState where
  BestValidationScore : Flt
  bestParameters : List Flt
  NoImprovementCount : ℕ
  BestLoss : Flt
  ValidationScores : List Flt
deriving DecidableEq

/-- Embedding of updateNoImprovementCount.  The validation score, the last
recorded epoch loss and the current packed parameters are inputs (in the
source they come from mlp.score, mlp.LossCurve and mlp.packedParameters). -/
def updateNoImprovementCount (tol : Flt) (earlyStopping : Bool) (st : ESState)
    (lastValidScore lastLoss : Flt) (params : List Flt) : ESState :=
  let st1 := if earlyStopping then
      let a := { st with ValidationScores := st.ValidationScores ++ [lastValidScore] }
      let b := if Flt.ltB lastValidScore (a.BestValidationScore + tol) then
          { a with NoImprovementCount := a.NoImprovementCount + 1 }
        else { a with NoImprovementCount := 0 }
      if Flt.ltB b.BestValidationScore lastValidScore then
        { b with BestValidationScore := lastValidScore, bestParameters := params }
      else b
    else st
  let st2 := if !earlyStopping then
      if Flt.ltB (st1.BestLoss - tol) lastLoss then
        { st1 with NoImprovementCount := st1.NoImprovementCount + 1 }
      else { st1 with NoImprovementCount := 0 }
    else st1
  if Flt.ltB lastLoss st2.BestLoss then { st2 with BestLoss := lastLoss } else st2

/-- The parameters the caller sees after an early-stopping stochastic fit:
fold updateNoImprovementCount over the per-epoch (validation score, epoch
loss, packed parameters) triples starting from the initial state
(BestValidationScore = 0, all-zero bestParameters buffer, BestLoss = +Inf),
then perform the final restore step, which copies bestParameters over
packedParameters. -/
def fitEarlyStoppingParams (tol : Flt) (paramLen : ℕ)
    (epochs : List (Flt × Flt × List Flt)) : List Flt :=
  (epochs.foldl (fun st e => updateNoImprovementCount tol true st e.1 e.2.1 e.2.2)
    { BestValidationScore := Flt.fin 0
      bestParameters := List.replicate paramLen (Flt.fin 0)
      NoImprovementCount := 0
      BestLoss := Flt.inf
      ValidationScores := [] }).bestParameters

/-- The joint (index, row-payload) state fitStochastic maintains for shuffling:
idx starts as the identity and every Swap exchanges idx, an X row and a Y row
in lockstep.  The payload type stands for the paired X/Y row. -/
def initState (n : ℕ) (rows : Fin n → α) : Fin n → ℕ × α :=
  fun i => ((i : ℕ), rows i)

/-- Modelled from the spec: the joint in-place Swap of indexedXY (its source
file is not under src/) exchanges positions i and j of idx, X and Y together;
a shuffle is an arbitrary sequence of such swaps (rand.Shuffle chooses them),
so the state after shuffling is the original state composed with a
permutation. -/
def applySwaps (n : ℕ) : List (Fin n × Fin n) → (Fin n → ℕ × α) → (Fin n → ℕ × α)
  | [], s => s
  | p :: rest, s => applySwaps n rest (s ∘ (Equiv.swap p.1 p.2))

/-- A concrete instantiation of the transcendental parameters used by the
closed evaluations below; only values the relevant code paths pin down (such
as sqrt 0 = 0 and sqrt 1 = 1, which the identity satisfies) matter there. -/
def idRealFns : RealFns :=
  { exp := fun v => v, tanh := fun v => v, sqrt := fun v => v,
    log := fun v => v, log1p := fun v => v }

/-- An AdamOptimizer64 with every field at its Go zero value. -/
def adamZero : AdamOptimizer64 :=
  { Params := [], LearningRateInit := Flt.fin 0, LearningRate := Flt.fin 0,
    Beta1 := Flt.fin 0, Beta2 := Flt.fin 0, Epsilon := Flt.fin 0, t := Flt.fin 0,
    ms := [], vs := [], beta1t := Flt.fin 0, beta2t := Flt.fin 0 }

/-- A freshly constructed Adam optimizer with Beta1 = 1/2, Beta2 = 0 (both
accepted by validateHyperparameters), Epsilon = 1, unit initial rate and two
parameters, as fitStochastic would build it before the first update. -/
def adamC5 : AdamOptimizer64 :=
  { Params := [Flt.fin 0, Flt.fin 0], LearningRateInit := Flt.fin 1,
    LearningRate := Flt.fin 1, Beta1 := Flt.fin (1 / 2), Beta2 := Flt.fin 0,
    Epsilon := Flt.fin 1, t := Flt.fin 0, ms := [], vs := [],
    beta1t := Flt.fin 0, beta2t := Flt.fin 0 }

/-- A minimal regression configuration (identity activations, square loss, no
regularization, no decay, no batch normalization). -/
def cfgC6 : MLPCfg :=
  { Activation := "identity", OutActivation := "identity",
    LossFuncName := "square_loss", Alpha := 0, WeightDecay := 0,
    BatchNormalize := false }

/-- A two-column label matrix: column 0 takes values 1 and 2, column 1 takes
values 3 and 4. -/
def YmultiCol : Mat := [[Flt.fin 1, Flt.fin 3], [Flt.fin 2, Flt.fin 4]]

/-- A one-column label matrix with three distinct values. -/
def YoneCol : Mat := [[Flt.fin 7], [Flt.fin 5], [Flt.fin 6]]

/-- The label binarizer the MLP constructs (codes 0/1) fitted on YmultiCol. -/
def lbMulti : LabelBinarizer64 :=
  (NewLabelBinarizer64 (Flt.fin 0) (Flt.fin 1)).Fit YmultiCol

/-- The label binarizer the MLP constructs (codes 0/1) fitted on YoneCol. -/
def lbOne : LabelBinarizer64 :=
  (NewLabelBinarizer64 (Flt.fin 0) (Flt.fin 1)).Fit YoneCol

/-- A two-block binarizer with a nonzero negative code, as Fit would build it
from negative code 2, positive code 1 and the labels [[5,7],[6,8]]. -/
def lbW : LabelBinarizer64 :=
  { NegLabel := Flt.fin 2, PosLabel := Flt.fin 1,
    Classes := [[Flt.fin 5, Flt.fin 6], [Flt.fin 7, Flt.fin 8]] }

theorem Flt.inf_mul_pos (q : ℚ) (h : 0 < q) : Flt.inf * Flt.fin q = Flt.inf := by
  show Flt.mul .inf (.fin q) = .inf
  simp [Flt.mul, h]

theorem Flt.inf_add_inf : Flt.inf + Flt.inf = Flt.inf := rfl

theorem Flt.zero_add_inf : Flt.fin 0 + Flt.inf = Flt.inf := rfl

theorem Flt.inf_div_cast (n : ℕ) : Flt.inf / Flt.ofNat n = Flt.inf := by
  show Flt.div .inf (.fin n) = .inf
  have : ¬ ((n : ℚ) < 0) := not_lt.mpr (by positivity)
  simp [Flt.div, this]

/-- Once the accumulator of the minibatch sweep is +Inf it stays +Inf when
every batch loss is +Inf (each processed block has at least one row). -/
theorem sweepLoopF_inf_acc (limit bs : ℕ) (hbs : 0 < bs) :
    ∀ (fuel b0 : ℕ),
      sweepLoopF (fun _ _ => Flt.inf) limit bs fuel Flt.inf b0 = Flt.inf := by
  intro fuel
  induction fuel with
  | zero => intro b0; rfl
  | succ m ih =>
    intro b0
    rw [sweepLoopF]
    by_cases hb : b0 < limit
    · rw [if_pos hb]
      show sweepLoopF (fun _ _ => Flt.inf) limit bs m
        (Flt.inf + Flt.inf * Flt.ofNat (min (b0 + bs) limit - b0)) (min (b0 + bs) limit) = Flt.inf
      have hk : 0 < min (b0 + bs) limit - b0 := by omega
      have hacc : Flt.inf + Flt.inf * Flt.ofNat (min (b0 + bs) limit - b0) = Flt.inf := by
        rw [Flt.ofNat, Flt.inf_mul_pos _ (by exact_mod_cast hk), Flt.inf_add_inf]
      rw [hacc]
      exact ih _
    · rw [if_neg hb]

/-- C6 (amended): the loss registry and backprop perform no NaN/Inf check: a
non-finite batch loss is returned as an ordinary value and the stochastic
sweep accumulates it into the recorded epoch loss (+Inf here) instead of
aborting the fit. -/
theorem c6_nonfinite_epoch_loss_recorded (n bs : ℕ) (hn : 0 < n) (hbs : 0 < bs) :
    epochLoss (fun _ _ => Flt.inf) n 0 bs = Flt.inf := by
  rw [epochLoss, Nat.sub_zero]
  obtain ⟨m, rfl⟩ : ∃ m, n = m + 1 := ⟨n - 1, by omega⟩
  rw [sweepLoopF, if_pos (by omega : 0 < m + 1)]
  show sweepLoopF (fun _ _ => Flt.inf) (m + 1) bs m
      (Flt.fin 0 + Flt.inf * Flt.ofNat (min (0 + bs) (m + 1) - 0)) (min (0 + bs) (m + 1))
      / Flt.ofNat (m + 1) = Flt.inf
  have hk : 0 < min (0 + bs) (m + 1) - 0 := by omega
  have hacc : Flt.fin 0 + Flt.inf * Flt.ofNat (min (0 + bs) (m + 1) - 0) = Flt.inf := by
    rw [Flt.ofNat, Flt.inf_mul_pos _ (by exact_mod_cast hk), Flt.zero_add_inf]
  rw [hacc, sweepLoopF_inf_acc _ _ hbs, Flt.inf_div_cast]

/-- C6 witness: the amended statement at n = 1, bs = 1. -/
theorem c6_nonfinite_epoch_loss_recorded_witness :
    epochLoss (fun _ _ => Flt.inf) 1 0 1 = Flt.inf :=
  c6_nonfinite_epoch_loss_recorded 1 1 (by decide) (by decide)

/-- C1: the claim states that the stochastic epoch loss is the accumulated
sum of batch loss times batch row count divided by the NON-VALIDATION row
count; the code divides by the full row count.  With 2 rows, a validation
slice of 1 row, batch size 1 and every batch loss 1, fitStochastic records
1/2 while the claimed formula gives 1. -/
theorem c1_epoch_loss_divided_by_total_rows :
    epochLoss (fun _ _ => Flt.fin 1) 2 1 1 = Flt.fin (1 / 2)
    ∧ specEpochLoss (fun _ _ => Flt.fin 1) 2 1 1 = Flt.fin 1
    ∧ epochLoss (fun _ _ => Flt.fin 1) 2 1 1
        ≠ specEpochLoss (fun _ _ => Flt.fin 1) 2 1 1 := by
  with_unfolding_all decide

/-- C2 counterexample: AdamOptimizer64.triggerStopping does not return the
continue decision (false); at a concrete invocation it returns true (stop). -/
theorem c2_adam_trigger_not_continue :
    ¬ (adamZero.triggerStopping "Validation score did not improve" false = false) := by
  decide

/-- C2 (amended): AdamOptimizer64.triggerStopping returns true (stop
immediately) for every receiver, message and verbosity, so with solver adam
the stochastic loop halts as soon as the no-improvement counter exceeds the
patience threshold instead of continuing to the iteration cap. -/
theorem c2_adam_trigger_always_stops (opt : AdamOptimizer64) (msg : String)
    (verbose : Bool) : opt.triggerStopping msg verbose = true :=
  rfl

/-- C3: on a 2-column label matrix the fitted binarizer's
InverseTransform∘Transform is not the identity: the inverse loop advances its
block offset twice per iteration, decodes only the first target column and
leaves the second output column at the zero fill.  The same round trip on a
1-column matrix is exact. -/
theorem c3_roundtrip_multicolumn_fails :
    lbMulti.InverseTransform (lbMulti.Transform YmultiCol)
      = [[Flt.fin 1, Flt.fin 0], [Flt.fin 2, Flt.fin 0]]
    ∧ lbMulti.InverseTransform (lbMulti.Transform YmultiCol) ≠ YmultiCol
    ∧ lbOne.InverseTransform (lbOne.Transform YoneCol) = YoneCol := by
  decide

/-- C4 counterexample: for a binarizer fitted with negative code -1 and
positive code 1 on single-column classes {5, 6}, transforming the unseen value
7 writes the negative code only into column 0 of the class block and leaves
the rest at the zero fill, so the block is not all-negative-code. -/
theorem c4_unseen_not_all_negative :
    ((NewLabelBinarizer64 (Flt.fin (-1)) (Flt.fin 1)).Fit
        [[Flt.fin 5], [Flt.fin 6]]).Transform [[Flt.fin 7]]
      = [[Flt.fin (-1), Flt.fin 0]]
    ∧ [[Flt.fin (-1), Flt.fin 0]] ≠ [[Flt.fin (-1), Flt.fin (-1)]] := by
  decide

/-- C5: at the first Adam step with two parameters (Beta1 = 1/2, Beta2 = 0,
unit initial rate), the learning rate applied to the second parameter is
init/(1 - Beta1^2) = 4/3, not the claimed per-step value
init*sqrt(1 - Beta2)/(1 - Beta1) = 2: the bias-correction products are
multiplied once per parameter inside the update loop, not once per step. -/
theorem c5_adam_lr_differs_across_params :
    (AdamOptimizer64.updateParams idRealFns adamC5 [Flt.fin 0, Flt.fin 0]).LearningRate
      = Flt.fin (4 / 3)
    ∧ specAdamLR idRealFns (Flt.fin 1) (Flt.fin (1 / 2)) (Flt.fin 0) 1 = Flt.fin 2
    ∧ (AdamOptimizer64.updateParams idRealFns adamC5 [Flt.fin 0, Flt.fin 0]).LearningRate
      ≠ specAdamLR idRealFns (Flt.fin 1) (Flt.fin (1 / 2)) (Flt.fin 0) 1 := by
  with_unfolding_all decide

/-- C6 counterexample: a loss that evaluates to +Inf is not trapped anywhere:
square_loss returns it as an ordinary (non-finite) value and backprop adds the
regularization term to it and returns it, with no failure path taken. -/
theorem c6_nonfinite_loss_returned :
    squareLoss [[Flt.inf]] [[Flt.fin 0]] = Flt.inf
    ∧ Flt.isFinite (squareLoss [[Flt.inf]] [[Flt.fin 0]]) = false
    ∧ backpropLoss idRealFns cfgC6 [[[Flt.fin 1]]] [[Flt.fin 0]]
        [[Flt.fin 0]] [[Flt.inf]] = Flt.inf := by
  decide

theorem getD_map_rows (f : List Flt → List Flt) (Z : Mat) (r : ℕ) (hr : r < Z.length) :
    (Z.map f).getD r [] = f (Z.getD r []) := by
  rw [List.getD_eq_getElem?_getD, List.getElem?_map, List.getElem?_eq_getElem hr,
    List.getD_eq_getElem?_getD, List.getElem?_eq_getElem hr]
  rfl

theorem getD_map_entry (g : Flt → Flt) (l : List Flt) (c : ℕ) (hc : c < l.length) :
    (l.map g).getD c (Flt.fin 0) = g (l.getD c (Flt.fin 0)) := by
  rw [List.getD_eq_getElem?_getD, List.getElem?_map, List.getElem?_eq_getElem hc,
    List.getD_eq_getElem?_getD, List.getElem?_eq_getElem hc]
  rfl

theorem getD_zipWith_rows (g : List Flt → List Flt → List Flt) (Z D : Mat) (r : ℕ)
    (hZ : r < Z.length) (hD : r < D.length) :
    (List.zipWith g Z D).getD r [] = g (Z.getD r []) (D.getD r []) := by
  rw [List.getD_eq_getElem?_getD, List.getElem?_zipWith, List.getElem?_eq_getElem hZ,
    List.getElem?_eq_getElem hD, List.getD_eq_getElem?_getD, List.getElem?_eq_getElem hZ,
    List.getD_eq_getElem?_getD, List.getElem?_eq_getElem hD]
  rfl

theorem getD_zipWith_entry (g : Flt → Flt → Flt) (l1 l2 : List Flt) (c : ℕ)
    (h1 : c < l1.length) (h2 : c < l2.length) :
    (List.zipWith g l1 l2).getD c (Flt.fin 0)
      = g (l1.getD c (Flt.fin 0)) (l2.getD c (Flt.fin 0)) := by
  rw [List.getD_eq_getElem?_getD, List.getElem?_zipWith, List.getElem?_eq_getElem h1,
    List.getElem?_eq_getElem h2, List.getD_eq_getElem?_getD, List.getElem?_eq_getElem h1,
    List.getD_eq_getElem?_getD, List.getElem?_eq_getElem h2]
  rfl

theorem transformRowAux_cons (neg pos : Flt) (cls : List Flt) (val : Flt)
    (rest : List (List Flt × Flt)) (baseCol : ℕ) (out : List Flt) :
    transformRowAux neg pos ((cls, val) :: rest) baseCol out
      = transformRowAux neg pos rest (baseCol + cls.length)
          (match cls.findIdx? (fun c => c = val) with
            | some classNo => out.set (baseCol + classNo) pos
            | none => out.set (baseCol + 0) neg) :=
  rfl

theorem transformRowAux_cons_none (neg pos : Flt) (cls : List Flt) (val : Flt)
    (rest : List (List Flt × Flt)) (baseCol : ℕ) (out : List Flt)
    (hf : cls.findIdx? (fun c => c = val) = none) :
    transformRowAux neg pos ((cls, val) :: rest) baseCol out
      = transformRowAux neg pos rest (baseCol + cls.length) (out.set (baseCol + 0) neg) := by
  rw [transformRowAux_cons, hf]

theorem transformRowAux_cons_some (neg pos : Flt) (cls : List Flt) (val : Flt)
    (rest : List (List Flt × Flt)) (baseCol : ℕ) (out : List Flt) (classNo : ℕ)
    (hf : cls.findIdx? (fun c => c = val) = some classNo) :
    transformRowAux neg pos ((cls, val) :: rest) baseCol out
      = transformRowAux neg pos rest (baseCol + cls.length)
          (out.set (baseCol + classNo) pos) := by
  rw [transformRowAux_cons, hf]

theorem transformRowAux_length (neg pos : Flt) :
    ∀ (ps : List (List Flt × Flt)) (baseCol : ℕ) (out : List Flt),
      (transformRowAux neg pos ps baseCol out).length = out.length := by
  intro ps
  induction ps with
  | nil => intro baseCol out; rfl
  | cons p rest ih =>
    obtain ⟨cls, val⟩ := p
    intro baseCol out
    cases hf : cls.findIdx? (fun c => c = val) with
    | none => rw [transformRowAux_cons_none _ _ _ _ _ _ _ hf, ih, List.length_set]
    | some classNo => rw [transformRowAux_cons_some _ _ _ _ _ _ _ _ hf, ih, List.length_set]

/-- Block writes never touch positions below the running baseCol. -/
theorem transformRowAux_getD_lt (neg pos : Flt) :
    ∀ (ps : List (List Flt × Flt)) (baseCol t : ℕ) (out : List Flt), t < baseCol →
      (transformRowAux neg pos ps baseCol out).getD t (Flt.fin 0)
        = out.getD t (Flt.fin 0) := by
  intro ps
  induction ps with
  | nil => intro baseCol t out _; rfl
  | cons p rest ih =>
    obtain ⟨cls, val⟩ := p
    intro baseCol t out ht
    cases hf : cls.findIdx? (fun c => c = val) with
    | none =>
      rw [transformRowAux_cons_none _ _ _ _ _ _ _ hf, ih _ _ _ (by omega)]
      simp only [List.getD_eq_getElem?_getD]
      rw [List.getElem?_set_ne (by omega)]
    | some classNo =>
      rw [transformRowAux_cons_some _ _ _ _ _ _ _ _ hf, ih _ _ _ (by omega)]
      simp only [List.getD_eq_getElem?_getD]
      rw [List.getElem?_set_ne (by omega)]

/-- When every class block processed is nonempty, block writes never reach
positions at or beyond baseCol plus the total width of the processed blocks. -/
theorem transformRowAux_getD_ge (neg pos : Flt) :
    ∀ (ps : List (List Flt × Flt)) (baseCol t : ℕ) (out : List Flt),
      (∀ p ∈ ps, p.1 ≠ []) →
      baseCol + (ps.map (fun p => p.1.length)).sum ≤ t →
      (transformRowAux neg pos ps baseCol out).getD t (Flt.fin 0)
        = out.getD t (Flt.fin 0) := by
  intro ps
  induction ps with
  | nil => intro baseCol t out _ _; rfl
  | cons p rest ih =>
    obtain ⟨cls, val⟩ := p
    intro baseCol t out hne hsum
    simp only [List.map_cons, List.sum_cons] at hsum
    have hpos : 0 < cls.length :=
      List.length_pos.mpr (hne (cls, val) (List.mem_cons_self _ _))
    have hrest : ∀ p ∈ rest, p.1 ≠ [] := fun p hp => hne p (List.mem_cons_of_mem _ hp)
    cases hf : cls.findIdx? (fun c => c = val) with
    | none =>
      rw [transformRowAux_cons_none _ _ _ _ _ _ _ hf, ih _ _ _ hrest (by omega)]
      simp only [List.getD_eq_getElem?_getD]
      rw [List.getElem?_set_ne (by omega)]
    | some classNo =>
      have hclassNo : classNo < cls.length := by
        obtain ⟨hlt, -⟩ := List.findIdx?_eq_some_iff_getElem.mp hf
        exact hlt
      rw [transformRowAux_cons_some _ _ _ _ _ _ _ _ hf, ih _ _ _ hrest (by omega)]
      simp only [List.getD_eq_getElem?_getD]
      rw [List.getElem?_set_ne (by omega)]

theorem transformRowAux_append (neg pos : Flt) :
    ∀ (ps1 ps2 : List (List Flt × Flt)) (baseCol : ℕ) (out : List Flt),
      transformRowAux neg pos (ps1 ++ ps2) baseCol out
        = transformRowAux neg pos ps2
            (baseCol + (ps1.map (fun p => p.1.length)).sum)
            (transformRowAux neg pos ps1 baseCol out) := by
  intro ps1
  induction ps1 with
  | nil => intro ps2 baseCol out; simp [transformRowAux]
  | cons p rest ih =>
    obtain ⟨cls, val⟩ := p
    intro ps2 baseCol out
    rw [List.cons_append, transformRowAux_cons, transformRowAux_cons, ih]
    have harith : baseCol + cls.length + (rest.map (fun p => p.1.length)).sum
        = baseCol + (((cls, val) :: rest).map (fun p => p.1.length)).sum := by
      simp [Nat.add_assoc]
    rw [harith]

theorem classBaseCol_block_le :
    ∀ (classes : List (List Flt)) (j : ℕ), j < classes.length →
      classBaseCol classes j + (classes.getD j []).length
        ≤ (classes.map List.length).sum := by
  intro classes
  induction classes with
  | nil => intro j hj; simp at hj
  | cons c cs ih =>
    intro j hj
    cases j with
    | zero =>
      simp only [classBaseCol, List.range_zero, List.map_nil, List.sum_nil, Nat.zero_add,
        List.getD_cons_zero, List.map_cons, List.sum_cons]
      omega
    | succ k =>
      have hk : k < cs.length := by simpa using hj
      have hstep : classBaseCol (c :: cs) (k + 1) = c.length + classBaseCol cs k := by
        rw [classBaseCol, classBaseCol, List.range_succ_eq_map, List.map_cons,
          List.map_map, List.sum_cons]
        rfl
      have hrec := ih k hk
      simp only [List.map_cons, List.sum_cons, List.getD_cons_succ]
      rw [hstep]
      omega

theorem getD_replicate_zero (n t : ℕ) :
    (List.replicate n (Flt.fin 0)).getD t (Flt.fin 0) = Flt.fin 0 := by
  rw [List.getD_eq_getElem?_getD, List.getElem?_replicate]
  split
  · rfl
  · rfl

/-- C4 (amended): for every fitted LabelBinarizer (any number of target
columns and class blocks, any codes) and every transform-time row whose value
in column j is absent from the j-th fit-time class list, Transform writes the
negative code into the FIRST column of that class block (the zero value of
the failed map lookup) and leaves the remaining entries of the block at the
zero fill of the fresh output buffer; the computation is total (no panic).
The block is therefore all-negative-code exactly when the negative code is 0,
as in the MLP's NewLabelBinarizer64(0, 1) usage. -/
theorem c4_unseen_writes_neg_at_block_head (m : LabelBinarizer64) (Y : Mat)
    (i j q : ℕ) (hi : i < Y.length)
    (hrowlen : (Y.getD i []).length = m.Classes.length)
    (hne : ∀ cls ∈ m.Classes, cls ≠ [])
    (hj : j < m.Classes.length)
    (hq : q < (m.Classes.getD j []).length)
    (hval : (Y.getD i []).getD j (Flt.fin 0) ∉ m.Classes.getD j []) :
    ((m.Transform Y).getD i []).getD (classBaseCol m.Classes j + q) (Flt.fin 0)
      = if q = 0 then m.NegLabel else Flt.fin 0 := by
  have hT : m.Transform Y = Y.map (fun yrow =>
      transformRowAux m.NegLabel m.PosLabel
        ((List.range yrow.length).map
          (fun k => (m.Classes.getD k [], yrow.getD k (Flt.fin 0))))
        0 (List.replicate ((m.Classes.map List.length).sum) (Flt.fin 0))) := rfl
  rw [hT, getD_map_rows _ _ _ hi]
  set row := Y.getD i [] with hrowdef
  set ps := (List.range row.length).map
      (fun k => (m.Classes.getD k [], row.getD k (Flt.fin 0))) with hpsdef
  have hjrow : j < row.length := by omega
  have hjp : j < ps.length := by
    rw [hpsdef, List.length_map, List.length_range]; exact hjrow
  have htake : ps.take j = (List.range j).map
      (fun k => (m.Classes.getD k [], row.getD k (Flt.fin 0))) := by
    rw [hpsdef, ← List.map_take, List.take_range, Nat.min_eq_left (Nat.le_of_lt hjrow)]
  have hb : ((ps.take j).map (fun p => p.1.length)).sum = classBaseCol m.Classes j := by
    rw [htake, List.map_map, classBaseCol]
    rfl
  have hsplit : ps = ps.take j
      ++ (m.Classes.getD j [], row.getD j (Flt.fin 0)) :: ps.drop (j + 1) := by
    have hpj : ps[j] = (m.Classes.getD j [], row.getD j (Flt.fin 0)) := by
      have h1 : ps[j]? = some (m.Classes.getD j [], row.getD j (Flt.fin 0)) := by
        rw [hpsdef, List.getElem?_map, List.getElem?_range hjrow]
        rfl
      rw [List.getElem?_eq_getElem hjp] at h1
      exact Option.some.inj h1
    conv_lhs => rw [← List.take_append_drop j ps]
    rw [← List.getElem_cons_drop ps j hjp, hpj]
  have hfind : (m.Classes.getD j []).findIdx?
      (fun c => c = row.getD j (Flt.fin 0)) = none := by
    rw [List.findIdx?_eq_none_iff]
    intro x hx
    simp only [decide_eq_false_iff_not]
    intro hxv
    exact hval (hxv ▸ hx)
  rw [hsplit, transformRowAux_append, transformRowAux_cons_none _ _ _ _ _ _ _ hfind]
  simp only [Nat.zero_add, Nat.add_zero, hb]
  rw [transformRowAux_getD_lt _ _ _ _ _ _ (by omega)]
  have hlenP : (transformRowAux m.NegLabel m.PosLabel (ps.take j) 0
      (List.replicate ((m.Classes.map List.length).sum) (Flt.fin 0))).length
      = (m.Classes.map List.length).sum := by
    rw [transformRowAux_length, List.length_replicate]
  have hblock := classBaseCol_block_le m.Classes j hj
  by_cases hq0 : q = 0
  · subst hq0
    rw [if_pos rfl]
    simp only [Nat.add_zero]
    rw [List.getD_eq_getElem?_getD, List.getElem?_set_self (by omega)]
    rfl
  · rw [if_neg hq0]
    simp only [List.getD_eq_getElem?_getD]
    rw [List.getElem?_set_ne (by omega)]
    have hne2 : ∀ p ∈ ps.take j, p.1 ≠ [] := by
      intro p hp
      rw [htake] at hp
      obtain ⟨k, hk, rfl⟩ := List.mem_map.mp hp
      have hkj : k < j := List.mem_range.mp hk
      have hkc : k < m.Classes.length := by omega
      have hmem : m.Classes.getD k [] ∈ m.Classes := by
        rw [List.getD_eq_getElem?_getD, List.getElem?_eq_getElem hkc]
        exact List.get_mem _ _ _
      exact hne _ hmem
    have hge : 0 + ((ps.take j).map (fun p => p.1.length)).sum
        ≤ classBaseCol m.Classes j + q := by
      rw [hb]; omega
    rw [← List.getD_eq_getElem?_getD,
      transformRowAux_getD_ge _ _ _ _ _ _ hne2 hge]
    exact getD_replicate_zero _ _

/-- C4 witness: the two-block binarizer lbW (negative code 2), row [5, 9]:
column 1's value 9 is unseen, so the second block, at baseCol 2, gets the
negative code at its head (offset 0) and the zero fill at offset 1. -/
theorem c4_unseen_writes_neg_at_block_head_witness :
    ((lbW.Transform [[Flt.fin 5, Flt.fin 9]]).getD 0 []).getD
        (classBaseCol lbW.Classes 1 + 0) (Flt.fin 0)
      = (if 0 = 0 then lbW.NegLabel else Flt.fin 0)
    ∧ ((lbW.Transform [[Flt.fin 5, Flt.fin 9]]).getD 0 []).getD
        (classBaseCol lbW.Classes 1 + 1) (Flt.fin 0)
      = (if 1 = 0 then lbW.NegLabel else Flt.fin 0) :=
  ⟨c4_unseen_writes_neg_at_block_head lbW [[Flt.fin 5, Flt.fin 9]] 0 1 0
      (by decide) (by decide) (by with_unfolding_all decide) (by decide) (by decide)
      (by with_unfolding_all decide),
   c4_unseen_writes_neg_at_block_head lbW [[Flt.fin 5, Flt.fin 9]] 0 1 1
      (by decide) (by decide) (by with_unfolding_all decide) (by decide) (by decide)
      (by with_unfolding_all decide)⟩

theorem batchNormalizeActs_getLast (acts : List Mat) :
    (batchNormalizeActs acts).getLast? = acts.getLast? := by
  cases acts with
  | nil => rfl
  | cons a rest =>
    have hidx : (a :: rest).length - 1 < (a :: rest).length := by simp
    have hlen : (batchNormalizeActs (a :: rest)).length = (a :: rest).length := by
      simp [batchNormalizeActs]
    rw [List.getLast?_eq_getElem?, List.getLast?_eq_getElem?, hlen]
    rw [batchNormalizeActs, List.getElem?_map, List.getElem?_range hidx]
    have hcond : ¬ (1 ≤ (a :: rest).length - 1
        ∧ (a :: rest).length - 1 + 1 < (a :: rest).length) := by
      simp only [List.length_cons]
      omega
    simp only [Option.map_some']
    rw [if_neg hcond, List.getD_eq_getElem?_getD, List.getElem?_eq_getElem hidx]
    rfl

/-- C7: the scalar loss backprop returns is the loss-registry value on the
target and the final-layer activations of the forward pass, plus the L2 term
(0.5 * Alpha) * sumCoefSquares / nSamples; sumCoefSquares is a function of the
weight matrices alone, so the intercept (bias) vectors never enter the
regularization term, and batch normalization never touches the final layer the
loss reads. -/
theorem c7_backprop_loss_decomposition (F : RealFns) (cfg : MLPCfg)
    (coefs : List Mat) (intercepts : List (List Flt)) (X y : Mat) :
    backpropLoss F cfg coefs intercepts X y
      = LossFunctions64 F (effectiveLossName cfg.LossFuncName cfg.OutActivation) y
          (lastActivation F cfg coefs intercepts X)
        + (Flt.fin (1 / 2) * Flt.fin cfg.Alpha)
          * sumCoefSquares (decayedCoefs cfg.WeightDecay coefs) / Flt.ofNat X.length := by
  unfold backpropLoss lastActivation
  cases hbn : cfg.BatchNormalize
  · rfl
  · simp only [if_true]
    rw [List.getLastD_eq_getLast?, List.getLastD_eq_getLast?, batchNormalizeActs_getLast]

/-- C10: the "tanh" activation stores tanh(-z) (the negation of the argument
is in the source), its derivative routine multiplies each delta by 1 - z*z of
the stored output, and the implemented forward map differs from x ↦ tanh(x)
whenever tanh(-1) ≠ tanh(1). -/
theorem c10_tanh_forward_is_negated (F : RealFns) (Z D : Mat) (r c : ℕ)
    (hr : r < Z.length) (hc : c < (Z.getD r []).length)
    (hrD : r < D.length) (hcD : c < (D.getD r []).length)
    (hF : F.tanh (Flt.fin (-1)) ≠ F.tanh (Flt.fin 1)) :
    ((Activations64 F "tanh" Z).getD r []).getD c (Flt.fin 0)
        = F.tanh (Flt.neg ((Z.getD r []).getD c (Flt.fin 0)))
    ∧ ((Derivatives64 "tanh" Z D).getD r []).getD c (Flt.fin 0)
        = ((D.getD r []).getD c (Flt.fin 0))
          * (Flt.fin 1 - ((Z.getD r []).getD c (Flt.fin 0)) * ((Z.getD r []).getD c (Flt.fin 0)))
    ∧ Activations64 F "tanh" [[Flt.fin 1]] ≠ [[F.tanh (Flt.fin 1)]] := by
  have hAct : Activations64 F "tanh"
      = fun z => z.map (List.map (fun v => F.tanh (Flt.neg v))) := by
    simp [Activations64]
  have hDer : Derivatives64 "tanh"
      = fun Z deltas =>
          List.zipWith (List.zipWith (fun z d => d * (Flt.fin 1 - z * z))) Z deltas := by
    simp [Derivatives64]
  refine ⟨?_, ?_, ?_⟩
  · rw [hAct, getD_map_rows _ _ _ hr, getD_map_entry _ _ _ hc]
  · rw [hDer]
    dsimp only
    rw [getD_zipWith_rows _ _ _ _ hr hrD, getD_zipWith_entry _ _ _ _ hc hcD]
  · intro hEq
    apply hF
    have h2 := congrArg (fun m => (m.getD 0 []).getD 0 (Flt.fin 0)) hEq
    rw [hAct] at h2
    simpa [Flt.neg] using h2

/-- RealFns instance whose tanh slot is negation: it satisfies
tanh(-1) = 1 ≠ -1 = tanh(1). -/
def negTanhFns : RealFns :=
  { exp := fun v => v, tanh := Flt.neg, sqrt := fun v => v,
    log := fun v => v, log1p := fun v => v }

/-- C10 witness: the theorem instantiated at a 1x1 buffer holding 2, deltas
holding 3, with the negation instance for tanh. -/
theorem c10_tanh_forward_is_negated_witness :
    ((Activations64 negTanhFns "tanh" [[Flt.fin 2]]).getD 0 []).getD 0 (Flt.fin 0)
        = negTanhFns.tanh (Flt.neg ((([[Flt.fin 2]] : Mat).getD 0 []).getD 0 (Flt.fin 0)))
    ∧ ((Derivatives64 "tanh" [[Flt.fin 2]] [[Flt.fin 3]]).getD 0 []).getD 0 (Flt.fin 0)
        = ((([[Flt.fin 3]] : Mat).getD 0 []).getD 0 (Flt.fin 0))
          * (Flt.fin 1 - (([[Flt.fin 2]] : Mat).getD 0 []).getD 0 (Flt.fin 0)
              * (([[Flt.fin 2]] : Mat).getD 0 []).getD 0 (Flt.fin 0))
    ∧ Activations64 negTanhFns "tanh" [[Flt.fin 1]] ≠ [[negTanhFns.tanh (Flt.fin 1)]] :=
  c10_tanh_forward_is_negated negTanhFns [[Flt.fin 2]] [[Flt.fin 3]] 0 0
    (by decide) (by decide) (by decide) (by decide) (by with_unfolding_all decide)

theorem applySwaps_factor {α : Type} (n : ℕ) (swaps : List (Fin n × Fin n)) :
    ∀ s : Fin n → ℕ × α, ∃ π : Equiv.Perm (Fin n), applySwaps n swaps s = s ∘ ⇑π := by
  induction swaps with
  | nil =>
    intro s
    exact ⟨Equiv.refl _, by funext i; rfl⟩
  | cons p rest ih =>
    intro s
    obtain ⟨π2, hπ2⟩ := ih (s ∘ (Equiv.swap p.1 p.2))
    refine ⟨π2.trans (Equiv.swap p.1 p.2), ?_⟩
    show applySwaps n rest (s ∘ (Equiv.swap p.1 p.2)) = _
    rw [hπ2]
    funext i
    rfl

/-- C9: fitStochastic keeps idx jointly permuted with the X/Y rows and, after
training, sorts the joint state by idx; since idx started as the identity,
any sequence of joint swaps followed by any jointly applied permutation that
leaves idx ascending restores exactly the original rows. -/
theorem c9_shuffle_then_sort_restores {α : Type} (n : ℕ) (rows : Fin n → α)
    (swaps : List (Fin n × Fin n)) (σ : Equiv.Perm (Fin n))
    (hsorted : Monotone (fun i => ((applySwaps n swaps (initState n rows)) (σ i)).1)) :
    ∀ i, (applySwaps n swaps (initState n rows)) (σ i) = initState n rows i := by
  obtain ⟨π, hπ⟩ := applySwaps_factor n swaps (initState n rows)
  rw [hπ] at hsorted ⊢
  have hmono : Monotone ⇑(σ.trans π) := by
    intro a b hab
    rw [Fin.le_def]
    exact hsorted hab
  have hsm : StrictMono ⇑(σ.trans π) :=
    hmono.strictMono_of_injective (σ.trans π).injective
  have hsymm : Monotone ⇑(σ.trans π).symm := by
    intro a b hab
    by_contra hlt
    push_neg at hlt
    have h2 := hsm hlt
    simp only [Equiv.apply_symm_apply] at h2
    exact absurd hab (not_le.mpr h2)
  have hid : ∀ i, (σ.trans π) i = i := by
    intro i
    have h3 := Fin.coe_orderIso_apply (Equiv.toOrderIso (σ.trans π) hmono hsymm) i
    exact Fin.ext h3
  intro i
  show initState n rows (π (σ i)) = initState n rows i
  have h4 : π (σ i) = i := hid i
  rw [h4]

/-- Two payload rows for the C9 witness. -/
def rowsW : Fin 2 → ℕ := ![10, 20]

/-- C9 witness: two rows, one shuffle swap of rows 0 and 1, sorted back by the
transposition; the rows come back in their original order. -/
theorem c9_shuffle_then_sort_restores_witness :
    Monotone (fun i =>
      ((applySwaps 2 [((0 : Fin 2), (1 : Fin 2))] (initState 2 rowsW))
        ((Equiv.swap (0 : Fin 2) 1) i)).1)
    ∧ ∀ i, (applySwaps 2 [((0 : Fin 2), (1 : Fin 2))] (initState 2 rowsW))
        ((Equiv.swap (0 : Fin 2) 1) i) = initState 2 rowsW i :=
  ⟨by decide,
   c9_shuffle_then_sort_restores 2 rowsW [((0 : Fin 2), (1 : Fin 2))]
     (Equiv.swap 0 1) (by decide)⟩

/-- C8: with early stopping, BestValidationScore starts at the float64 zero
value 0 and a snapshot is taken only on a strict improvement over it, so an
epoch with validation score -1 (a reachable negative R²) never snapshots; the
final restore then returns the all-zero buffer instead of the best epoch's
parameters [5]. -/
theorem c8_no_snapshot_when_scores_nonpositive :
    fitEarlyStoppingParams (Flt.fin (1 / 10000)) 1
        [(Flt.fin (-1), Flt.fin 1, [Flt.fin 5])] = [Flt.fin 0]
    ∧ [Flt.fin 0] ≠ [Flt.fin 5] := by
  with_unfolding_all decide

end MLP64
